import Mathlib

/-!
Verification development for the documentation-sync pipeline of the
ai-docs-plugin repository.  The sync scripts are shallowly embedded as pure
Lean functions over explicit environments: network fetches, the git clone
command, the cloned directory tree, hashing and timestamps are inputs, and
filesystem effects are recorded as explicit write events.  String-level
behaviour (JavaScript `trim`, `split`, regex matches used by the scripts)
is modelled character by character.
-/

namespace AiDocsSync

/-! ## JavaScript string primitives -/

/-- Characters treated as whitespace by the JavaScript `trim` and by the
regex class backslash-s (space, tab, line feed, carriage return, vertical
tab, form feed, no-break space, BOM). -/
def jsWhitespace (c : Char) : Bool :=
  c = ' ' || c = '\t' || c = '\n' || c = '\r' ||
  c.toNat = 0xb || c.toNat = 0xc || c.toNat = 0xa0 || c.toNat = 0xfeff

/-- JavaScript `String.prototype.trim` on a character list. -/
def jsTrimChars (cs : List Char) : List Char :=
  ((cs.dropWhile jsWhitespace).reverse.dropWhile jsWhitespace).reverse

/-- Characters matched by the JavaScript regex dot (everything except line
terminators). -/
def jsDotChar (c : Char) : Bool :=
  !(c = '\n' || c = '\r')

/-- Characters matched by the JavaScript regex class backslash-w. -/
def jsWordChar (c : Char) : Bool :=
  c.isAlphanum || c = '_'

/-- Split a character list at every occurrence of a single character,
like the JavaScript `split("/")`. -/
def splitOnChar (sep : Char) : List Char → List (List Char)
  | [] => [[]]
  | c :: rest =>
    let r := splitOnChar sep rest
    if c = sep then [] :: r
    else
      match r with
      | [] => [[c]]
      | seg :: segs => (c :: seg) :: segs

/-! ## SectionParser: the llms.txt delimiter convention

`parseLlmsTxt` in `skills/xai/scripts/sync-docs.ts` and in the llms.txt
script templates does
`content.split(/(?====\/)/)` followed, per section, by
`section.match(/^===\/([^=]+)===/)`,
`section.replace(/^===[^=]+===\n?/, "").trim()` and an emptiness check. -/

/-- The four characters the zero-width lookahead of the split regex tests
for: three equals signs and a slash. -/
def delimChars : List Char := ['=', '=', '=', '/']

/-- Whether the list starts with the section delimiter opener. -/
def startsWithDelim (cs : List Char) : Bool :=
  cs.take 4 = delimChars

/-- Whether the delimiter opener occurs anywhere in the text (at any
offset, mid-line included). -/
def hasDelimOccurrence : List Char → Bool
  | [] => false
  | c :: rest => startsWithDelim (c :: rest) || hasDelimOccurrence rest

/-- Worker for `splitSections`: `cur` is the current segment reversed,
`done` the completed segments most recent first.  A split happens before
every delimiter occurrence except at position zero (a zero-width match at
the start of the string produces no leading empty element in the
JavaScript `split`). -/
def splitSectionsGo : List Char → List Char → List (List Char) → List (List Char)
  | [], cur, done => (cur.reverse :: done).reverse
  | c :: rest, cur, done =>
    if startsWithDelim (c :: rest) && !cur.isEmpty then
      splitSectionsGo rest [c] (cur.reverse :: done)
    else
      splitSectionsGo rest (c :: cur) done

/-- `content.split(/(?====\/)/)`: split before every occurrence of the
delimiter opener, anywhere in the string (the lookahead is not anchored to
line starts). -/
def splitSections (cs : List Char) : List (List Char) :=
  splitSectionsGo cs [] []

/-- `section.match(/^===\/([^=]+)===/)`: if the section starts with three
equals signs, a slash, one or more non-equals characters and three further
equals signs, return the captured path characters. -/
def matchDelimPath (cs : List Char) : Option (List Char) :=
  if cs.take 4 = delimChars then
    let after := cs.drop 4
    let p := after.takeWhile (fun c => !(c = '='))
    if !p.isEmpty && (after.drop p.length).take 3 = ['=', '=', '='] then
      some p
    else none
  else none

/-- `section.replace(/^===[^=]+===\n?/, "")`: strip the delimiter line
(and one following line feed) when the pattern matches at the start,
otherwise leave the section unchanged. -/
def stripDelimLine (cs : List Char) : List Char :=
  if cs.take 3 = ['=', '=', '='] then
    let after := cs.drop 3
    let p := after.takeWhile (fun c => !(c = '='))
    if !p.isEmpty && (after.drop p.length).take 3 = ['=', '=', '='] then
      match after.drop (p.length + 3) with
      | '\n' :: r => r
      | r => r
    else cs
  else cs

/-- The per-section body of the parse loop shared by all llms.txt parsers:
sections that match the delimiter pattern and have a nonempty trimmed body
yield a (path, body) pair, in section order. -/
def parseSections (cs : List Char) : List (List Char × List Char) :=
  (splitSections cs).filterMap fun sec =>
    match matchDelimPath sec with
    | none => none
    | some p =>
      let body := jsTrimChars (stripDelimLine sec)
      if body.isEmpty then none else some (p, body)

/-- JavaScript `Map.prototype.set` on an association list: overwrite the
value in place when the key is present, append otherwise. -/
def mapSet (m : List (String × String)) (k v : String) : List (String × String) :=
  if m.any fun kv => kv.1 = k then
    m.map fun kv => if kv.1 = k then (k, v) else kv
  else m ++ [(k, v)]

/-- `parseLlmsTxt` of `skills/xai/scripts/sync-docs.ts`: the parsed
sections inserted into a JavaScript `Map` (insertion order, last write
wins). -/
def parseLlmsTxtMap (content : String) : List (String × String) :=
  (parseSections content.data).foldl
    (fun m pb => mapSet m (String.mk pb.1) (String.mk pb.2)) []

/-- A parsed llms.txt document of the script templates. -/
structure ParsedDoc where
  path : String
  content : String
deriving DecidableEq, Repr

/-- `parseLlmsTxt` of the llms.txt script templates: the parsed sections
pushed onto an array (duplicates kept). -/
def parseLlmsTxtList (content : String) : List ParsedDoc :=
  (parseSections content.data).map fun pb => ⟨String.mk pb.1, String.mk pb.2⟩

/-! ## PathMapper

`pathToFilename` of `skills/xai/scripts/sync-docs.ts` and of the llms.txt
script templates:
`docPath.replace(/^docs\//, "").replace(/\//g, "-").replace(<dash runs>, "-") + ".md"`. -/

/-- `replace(/^docs\//, "")`. -/
def removeDocsRoot (cs : List Char) : List Char :=
  if cs.take 5 = "docs/".data then cs.drop 5 else cs

/-- Worker for `collapseDashes`: the flag records whether the previous
character was a dash (so the current dash belongs to an already-emitted
run). -/
def collapseDashesGo : Bool → List Char → List Char
  | _, [] => []
  | prevDash, c :: rest =>
    if c = '-' then
      (if prevDash then [] else ['-']) ++ collapseDashesGo true rest
    else c :: collapseDashesGo false rest

/-- The global replace of every run of dashes by a single dash. -/
def collapseDashes (cs : List Char) : List Char :=
  collapseDashesGo false cs

/-- `pathToFilename`: strip a leading docs slash, turn slashes into
dashes, collapse dash runs, and append a markdown extension
unconditionally. -/
def pathToFilename (docPath : String) : String :=
  String.mk (collapseDashes ((removeDocsRoot docPath.data).map
    fun c => if c = '/' then '-' else c)) ++ ".md"

/-! ## Title extraction

All sync scripts extract a title via `content.match(/^#\s+(.+)$/m)` with a
fallback.  The multiline caret matches at position zero and after every
line terminator; backslash-s-plus backtracks greedily; the dot excludes
line terminators. -/

/-- One attempt of the heading regex at a line start, on the text right
after the hash character: try whitespace-run lengths from `n` down to one;
the remainder must start with a character the regex dot accepts, and the
capture is the maximal run of such characters. -/
def headingCaptureGo : Nat → List Char → Option (List Char)
  | 0, _ => none
  | n + 1, cs =>
    match cs.drop (n + 1) with
    | c :: rest =>
      if jsDotChar c then some ((c :: rest).takeWhile jsDotChar)
      else headingCaptureGo n cs
    | [] => headingCaptureGo n cs

/-- The heading regex attempted at one line start whose first character
was the hash: `cs` is the rest of the text. -/
def headingCapture (cs : List Char) : Option (List Char) :=
  headingCaptureGo (cs.takeWhile jsWhitespace).length cs

/-- Scan for the first line start where the heading regex matches; the
flag records whether the current position is a line start. -/
def firstHeadingGo : Bool → List Char → Option (List Char)
  | _, [] => none
  | atStart, c :: rest =>
    if atStart && c = '#' then
      match headingCapture rest with
      | some t => some t
      | none => firstHeadingGo false rest
    else
      firstHeadingGo (!jsDotChar c) rest

/-- `content.match(/^#\s+(.+)$/m)`: the first captured heading text. -/
def firstHeading (cs : List Char) : Option (List Char) :=
  firstHeadingGo true cs

/-- `path.split("/").pop() || path`: the last slash-separated component,
falling back to the whole path when that component is empty. -/
def lastPathComponent (p : String) : String :=
  match (splitOnChar '/' p.data).getLast? with
  | some last => if last.isEmpty then p else String.mk last
  | none => p

/-- Title extraction of the llms.txt scripts: first heading, else the
last path component. -/
def extractTitle (content path : String) : String :=
  match firstHeading content.data with
  | some t => String.mk t
  | none => lastPathComponent path

/-- `name.replace(/\.(md|mdx)$/, "")`. -/
def stripMdExt (name : String) : String :=
  if ".mdx".data.isSuffixOf name.data then
    String.mk (name.data.take (name.data.length - 4))
  else if ".md".data.isSuffixOf name.data then
    String.mk (name.data.take (name.data.length - 3))
  else name

/-- Title extraction of the fastmcp sync script: first heading, else the
file name without its markdown extension. -/
def fastmcpTitle (content name : String) : String :=
  match firstHeading content.data with
  | some t => String.mk t
  | none => stripMdExt name

/-! ## Output-name helpers of the repository-clone scripts -/

/-- `name.replace(/\.mdx$/, ".md")`. -/
def mdxToMd (name : String) : String :=
  if ".mdx".data.isSuffixOf name.data then
    String.mk (name.data.take (name.data.length - 4)) ++ ".md"
  else name

/-- `path.join` on relative paths as the scripts use it (the empty
relative path joins to the bare name). -/
def joinRel (rel name : String) : String :=
  if rel = "" then name else rel ++ "/" ++ name

/-- The flat output name of the fastmcp sync script:
slash-to-dash-flattened relative path, a dash, the entry name, and the
mdx extension rewritten; a file at the top level keeps its name (with the
rewrite). -/
def fastmcpOutputName (relPath name : String) : String :=
  if relPath = "" then mdxToMd name
  else
    mdxToMd (String.mk (relPath.data.map fun c => if c = '/' then '-' else c)
      ++ "-" ++ name)

/-! ## Results, manifests and write events -/

/-- The status union of the SyncResult interfaces of the fastmcp and xai
scripts (the llms.txt templates declare only the first and last of
these). -/
inductive SyncStatus where
  | created
  | updated
  | unchanged
  | skipped
deriving DecidableEq, Repr

/-- A per-document result of the fastmcp, xai and llms.txt scripts. -/
structure SyncResult where
  path : String
  title : String
  status : SyncStatus
deriving DecidableEq, Repr

/-- The manifest record of the fastmcp, xai, llms.txt and github
scripts (fields not produced by a given script are `none`). -/
structure Manifest where
  source : String
  sourcePath : Option String
  commit : Option String
  syncedAt : String
  fileCount : Nat
  files : List String
deriving DecidableEq, Repr

/-- A manifest file entry of the direct-fetch template (path plus content
hash). -/
structure DirectManifestEntry where
  path : String
  hash : String
deriving DecidableEq, Repr

/-- The manifest record of the direct-fetch template: its files hold
hashes and are not sorted. -/
structure DirectManifest where
  source : String
  syncedAt : String
  fileCount : Nat
  files : List DirectManifestEntry
deriving DecidableEq, Repr

/-- A recorded filesystem write, relative to the output resources
directory. -/
inductive WriteEvent where
  | docFile (path content : String)
  | manifestFile (m : Manifest)
  | directManifestFile (m : DirectManifest)
deriving DecidableEq, Repr

/-! ## The JavaScript default sort order (UTF-16 code units) -/

/-- The UTF-16 code units of one character: the scalar value itself below
the astral planes, otherwise the surrogate pair. -/
def charUnits (c : Char) : List Nat :=
  if c.toNat < 0x10000 then [c.toNat]
  else [0xd800 + (c.toNat - 0x10000) / 0x400, 0xdc00 + (c.toNat - 0x10000) % 0x400]

/-- The UTF-16 code units of a string. -/
def strUnits (s : String) : List Nat :=
  s.data.flatMap charUnits

/-- The length the JavaScript `length` property reports (UTF-16 code
units). -/
def jsStringLength (s : String) : Nat :=
  (strUnits s).length

/-- Lexicographic order on code-unit lists. -/
def unitsLe : List Nat → List Nat → Bool
  | [], _ => true
  | _ :: _, [] => false
  | a :: as, b :: bs =>
    if a < b then true else if b < a then false else unitsLe as bs

/-- The string order of the JavaScript default `Array.prototype.sort`
comparator: lexicographic on UTF-16 code units. -/
def jsStrLe (a b : String) : Prop :=
  unitsLe (strUnits a) (strUnits b) = true

instance : DecidableRel jsStrLe := fun a b => by
  unfold jsStrLe
  infer_instance

/-- The model of the JavaScript `files.sort()` call: a comparison sort by
the default string order. -/
def jsSortStrings (l : List String) : List String :=
  List.insertionSort jsStrLe l

/-! ## The xai sync script (`skills/xai/scripts/sync-docs.ts`)

The browser fetch, the filesystem and the clock are environment inputs;
writes are recorded relative to the resources directory. -/

/-- Environment of one xai sync run: the outcome of the browser-based
fetch of llms.txt, and whether the resources directory already exists. -/
structure XaiEnv where
  fetchResult : Except String String
  resourcesDirExists : Bool

/-- The frontmatter the xai script prepends to each document body. -/
def xaiFrontmatter (path body : String) : String :=
  "---\nsource: https://docs.x.ai/" ++ path ++ "\n---\n\n" ++ body

/-- `syncDocs` of the xai script: one result per parsed document, with a
document write per result unless in dry-run mode. -/
def xaiSyncDocs (content : String) (dryRun : Bool) :
    List SyncResult × List WriteEvent :=
  let docs := parseLlmsTxtMap content
  (docs.map fun pb =>
    ⟨pathToFilename pb.1, extractTitle pb.2 pb.1,
     if dryRun then SyncStatus.skipped else SyncStatus.created⟩,
   if dryRun then []
   else docs.map fun pb =>
     WriteEvent.docFile (pathToFilename pb.1) (xaiFrontmatter pb.1 pb.2))

/-- `writeManifest` of the llms.txt scripts: skipped results are excluded
from the count, and the file list is sorted. -/
def llmsManifest (url syncedAt : String) (results : List SyncResult) : Manifest :=
  ⟨url, none, none, syncedAt,
   (results.filter fun r => r.status != SyncStatus.skipped).length,
   jsSortStrings (results.map fun r => r.path)⟩

/-- `writeManifest` of the xai script. -/
def xaiManifest (syncedAt : String) (results : List SyncResult) : Manifest :=
  llmsManifest "https://docs.x.ai/llms.txt" syncedAt results

/-- Outcome of one run of an llms.txt-style script. -/
structure ScriptOutcome where
  results : Option (List SyncResult)
  writes : List WriteEvent
  madeResourcesDir : Bool
  exitCode : Nat
  printedError : Bool
deriving DecidableEq, Repr

/-- `main` of the xai script: on a fetch error the catch block prints the
error and exits with status one; otherwise documents are synced and, in a
non-dry run, the manifest is written last. -/
def xaiMain (env : XaiEnv) (syncedAt : String) (dryRun : Bool) : ScriptOutcome :=
  match env.fetchResult with
  | Except.error _ => ⟨none, [], false, 1, true⟩
  | Except.ok content =>
    let rw := xaiSyncDocs content dryRun
    let writes :=
      if dryRun then rw.2
      else rw.2 ++ [WriteEvent.manifestFile (xaiManifest syncedAt rw.1)]
    ⟨some rw.1, writes, !dryRun && !env.resourcesDirExists, 0, false⟩

/-! ## The llms.txt script template (array-based parse) -/

/-- Environment of one llms.txt-template run. -/
structure LlmsEnv where
  fetchResult : Except String String
  llmsTxtUrl : String
  baseDocUrl : String
  syncedAt : String
  resourcesDirExists : Bool

/-- `syncDocs` of the llms.txt script template (the parse keeps duplicate
paths, so duplicated paths yield one result and one write each). -/
def llmsTemplateSyncDocs (content baseDocUrl : String) (dryRun : Bool) :
    List SyncResult × List WriteEvent :=
  let docs := parseLlmsTxtList content
  (docs.map fun d =>
    ⟨pathToFilename d.path, extractTitle d.content d.path,
     if dryRun then SyncStatus.skipped else SyncStatus.created⟩,
   if dryRun then []
   else docs.map fun d =>
     WriteEvent.docFile (pathToFilename d.path)
       ("---\nsource: " ++ baseDocUrl ++ "/" ++ d.path ++ "\n---\n\n" ++ d.content))

/-- `main` of the llms.txt script template. -/
def llmsTemplateMain (env : LlmsEnv) (dryRun : Bool) : ScriptOutcome :=
  match env.fetchResult with
  | Except.error _ => ⟨none, [], false, 1, true⟩
  | Except.ok content =>
    let rw := llmsTemplateSyncDocs content env.baseDocUrl dryRun
    let writes :=
      if dryRun then rw.2
      else rw.2 ++ [WriteEvent.manifestFile (llmsManifest env.llmsTxtUrl env.syncedAt rw.1)]
    ⟨some rw.1, writes, !dryRun && !env.resourcesDirExists, 0, false⟩

/-! ## The fastmcp sync script (`skills/fastmcp/scripts/sync-docs.ts`) -/

/-- A cloned directory tree: the material the git clone produced. -/
inductive FsEntry where
  | file (name content : String)
  | dir (name : String) (entries : List FsEntry)

/-- The directory skip set of the fastmcp script. -/
def SKIP_DIRS : List String :=
  [".cursor", "assets", "css", "public", "snippets", "node_modules"]

/-- The file skip set of the fastmcp script. -/
def SKIP_FILES : List String := [".ccignore"]

/-- The markdown extension filter of the fastmcp script. -/
def isMarkdownName (n : String) : Bool :=
  ".md".data.isSuffixOf n.data || ".mdx".data.isSuffixOf n.data

/-- `processDir` of the fastmcp script: depth-first traversal yielding,
per selected file, the flat output name, the extracted title and the file
content; skipped directories are not entered and skipped or
non-markdown files are dropped. -/
def fastmcpWalk : List FsEntry → String → List (String × String × String)
  | [], _ => []
  | FsEntry.dir n es :: rest, rel =>
    (if SKIP_DIRS.contains n then [] else fastmcpWalk es (joinRel rel n)) ++
      fastmcpWalk rest rel
  | FsEntry.file n c :: rest, rel =>
    (if SKIP_FILES.contains n || !isMarkdownName n then []
     else [(fastmcpOutputName rel n, fastmcpTitle c n, c)]) ++
      fastmcpWalk rest rel

/-- `copyDocs` of the fastmcp script: errors when the configured source
directory is absent from the clone; otherwise one result per selected
file, with writes suppressed in dry-run mode. -/
def fastmcpCopyDocs (sourceTree : Option (List FsEntry)) (dryRun : Bool) :
    Except String (List SyncResult × List WriteEvent) :=
  match sourceTree with
  | none => Except.error "Source directory not found"
  | some es =>
    let docs := fastmcpWalk es ""
    Except.ok
      (docs.map fun d =>
        ⟨d.1, d.2.1, if dryRun then SyncStatus.skipped else SyncStatus.created⟩,
       if dryRun then [] else docs.map fun d => WriteEvent.docFile d.1 d.2.2)

/-- `writeManifest` of the fastmcp script. -/
def fastmcpManifest (commitHash syncedAt : String) (results : List SyncResult) :
    Manifest :=
  ⟨"https://github.com/jlowin/fastmcp.git", none, some commitHash, syncedAt,
   (results.filter fun r => r.status != SyncStatus.skipped).length,
   jsSortStrings (results.map fun r => r.path)⟩

/-- `cleanup` of the repository-clone scripts: remove the scratch
directory when it exists. -/
def scratchCleanup (tempDirExists : Bool) : Bool :=
  if tempDirExists then false else tempDirExists

/-- Environment of one fastmcp sync run. -/
structure FastmcpEnv where
  cloneOk : Bool
  cloneLeavesPartial : Bool
  commitHash : String
  syncedAt : String
  sourceTree : Option (List FsEntry)
  tempDirInitiallyExists : Bool
  resourcesDirExists : Bool

/-- Outcome of one repository-clone sync run. -/
structure RepoRunOutcome where
  tempDirExists : Bool
  results : Option (List SyncResult)
  writes : List WriteEvent
  madeResourcesDir : Bool
  exitCode : Nat
  printedError : Bool

/-- `cloneRepo` of the fastmcp script: a stale scratch directory is
removed first (so the prior scratch state never survives); a successful
clone leaves the scratch directory in place, a failing clone command
throws and may leave a partial directory. -/
def fastmcpClone (env : FastmcpEnv) : Bool × Except String Unit :=
  if env.cloneOk then (true, Except.ok ())
  else (env.cloneLeavesPartial, Except.error "git clone failed")

/-- `main` of the fastmcp script: clone, copy and manifest write inside a
try block whose finally clause runs `cleanup`; the top-level catch prints
the error, runs `cleanup` once more and exits with status one. -/
def fastmcpMain (env : FastmcpEnv) (dryRun : Bool) : RepoRunOutcome :=
  let step1 := fastmcpClone env
  match step1.2 with
  | Except.error _ =>
    ⟨scratchCleanup (scratchCleanup step1.1), none, [], false, 1, true⟩
  | Except.ok _ =>
    match fastmcpCopyDocs env.sourceTree dryRun with
    | Except.error _ =>
      ⟨scratchCleanup (scratchCleanup step1.1), none, [],
       !dryRun && !env.resourcesDirExists, 1, true⟩
    | Except.ok rw =>
      let writes :=
        if dryRun then rw.2
        else rw.2 ++
          [WriteEvent.manifestFile (fastmcpManifest env.commitHash env.syncedAt rw.1)]
      ⟨scratchCleanup step1.1, some rw.1, writes,
       !dryRun && !env.resourcesDirExists, 0, false⟩

/-! ## The github sync template (`sync-github.ts`) -/

/-- A per-document result of the github template (no status field). -/
structure GithubResult where
  path : String
  size : Nat
deriving DecidableEq, Repr

/-- Environment of one github-template run. -/
structure GithubEnv where
  cloneOk : Bool
  cloneLeavesPartial : Bool
  commitHash : String
  syncedAt : String
  repoUrl : String
  srcPath : String
  sourceTree : Option (List FsEntry)
  tempDirInitiallyExists : Bool

/-- Outcome of one github-template run. -/
structure GithubOutcome where
  tempDirExists : Bool
  results : Option (List GithubResult)
  writes : List WriteEvent
  exitCode : Nat
  printedError : Bool

/-- Remove the first occurrence of a pattern from a character list, like
the JavaScript `replace` with a plain string pattern. -/
def removeFirstSub (pat : List Char) : List Char → List Char
  | [] => []
  | c :: rest =>
    if pat.isPrefixOf (c :: rest) then (c :: rest).drop pat.length
    else c :: removeFirstSub pat rest

/-- `processDir` of the github template: no skip sets, directory
structure preserved, mdx extensions rewritten on the file name. -/
def githubWalk : List FsEntry → String → List (String × String)
  | [], _ => []
  | FsEntry.dir n es :: rest, rel =>
    githubWalk es (joinRel rel n) ++ githubWalk rest rel
  | FsEntry.file n c :: rest, rel =>
    (if ".mdx".data.isSuffixOf n.data || ".md".data.isSuffixOf n.data then
       [(joinRel rel (mdxToMd n), c)]
     else []) ++ githubWalk rest rel

/-- `copyDocs` of the github template. -/
def githubCopyDocs (sourceTree : Option (List FsEntry)) (dryRun : Bool) :
    Except String (List GithubResult × List WriteEvent) :=
  match sourceTree with
  | none => Except.error "Source path not found"
  | some es =>
    let docs := githubWalk es ""
    Except.ok
      (docs.map fun d => ⟨d.1, jsStringLength d.2⟩,
       if dryRun then [] else docs.map fun d => WriteEvent.docFile d.1 d.2)

/-- `writeManifest` of the github template: source with the git extension
removed, file count and the sorted path list. -/
def githubManifest (env : GithubEnv) (results : List GithubResult) : Manifest :=
  ⟨String.mk (removeFirstSub ".git".data env.repoUrl.data), some env.srcPath,
   some env.commitHash, env.syncedAt, results.length,
   jsSortStrings (results.map fun r => r.path)⟩

/-- `main` of the github template: clone and copy inside a try block with
a finally cleanup; the returned promise rejection is handled by a catch
that only prints, so the process exits with status zero. -/
def githubMain (env : GithubEnv) (dryRun : Bool) : GithubOutcome :=
  if env.cloneOk then
    match githubCopyDocs env.sourceTree dryRun with
    | Except.error _ => ⟨scratchCleanup true, none, [], 0, true⟩
    | Except.ok rw =>
      let writes :=
        if dryRun then rw.2
        else rw.2 ++ [WriteEvent.manifestFile (githubManifest env rw.1)]
      ⟨scratchCleanup true, some rw.1, writes, 0, false⟩
  else
    ⟨scratchCleanup env.cloneLeavesPartial, none, [], 0, true⟩

/-! ## The direct-fetch template (`sync-direct.ts`) -/

/-- Environment of one direct-fetch run: the fetch outcome per path (a
non-2xx response throws inside `fetchDoc`), the content hash function and
configuration constants. -/
structure DirectEnv where
  fetchResult : String → Except String String
  hashOf : String → String
  baseUrl : String
  syncedAt : String

/-- A per-document result of the direct-fetch template (path, short
content hash and byte size; no status field). -/
structure DirectResult where
  path : String
  hash : String
  size : Nat
deriving DecidableEq, Repr

/-- Outcome of one direct-fetch run. -/
structure DirectOutcome where
  results : List DirectResult
  syncedCount : Nat
  failedCount : Nat
  writes : List WriteEvent
  manifest : Option DirectManifest
  exitCode : Nat
deriving Repr

/-- The per-path loop of the direct-fetch template: a successful fetch
pushes a result (and writes the document unless in dry-run mode); a
failed fetch only increments the failure counter and the loop
continues. -/
def directLoop (env : DirectEnv) (dryRun : Bool) :
    List String → List DirectResult × Nat × Nat × List WriteEvent
  | [] => ([], 0, 0, [])
  | p :: rest =>
    let acc := directLoop env dryRun rest
    match env.fetchResult p with
    | Except.ok content =>
      (⟨p, env.hashOf content, jsStringLength content⟩ :: acc.1,
       acc.2.1 + 1, acc.2.2.1,
       (if dryRun then [] else [WriteEvent.docFile p content]) ++ acc.2.2.2)
    | Except.error _ => (acc.1, acc.2.1, acc.2.2.1 + 1, acc.2.2.2)

/-- `main` of the direct-fetch template: loop over the configured paths,
then write a manifest holding the successful paths with their hashes, in
fetch order and unsorted, when the run is not dry and at least one path
succeeded. -/
def directMain (env : DirectEnv) (docPaths : List String) (dryRun : Bool) :
    DirectOutcome :=
  let acc := directLoop env dryRun docPaths
  let m : Option DirectManifest :=
    if !dryRun && !acc.1.isEmpty then
      some ⟨env.baseUrl, env.syncedAt, acc.1.length,
        acc.1.map fun r => ⟨r.path, r.hash⟩⟩
    else none
  ⟨acc.1, acc.2.1, acc.2.2.1,
   acc.2.2.2 ++
     (match m with
      | some mm => [WriteEvent.directManifestFile mm]
      | none => []),
   m, 0⟩

/-! ## MarkdownConverter: the codeBlocks turndown rule (`sync-html.ts` and
the gemini sync script)

The rule fires on pre elements and on code elements outside a pre; the
replacement reads the nested code element of a pre. -/

/-- The first nested code element of a pre node: its class attribute (the
DOM className, the empty string when absent), its data-lang attribute
(`getAttribute` yields null, here `none`, when absent) and its text
content. -/
structure CodeEl where
  className : String
  dataLang : Option String
  textContent : String
deriving DecidableEq, Repr

/-- A pre element: its first nested code element, when present, and its
own text content. -/
structure PreEl where
  code : Option CodeEl
  textContent : String
deriving DecidableEq, Repr

/-- A node the codeBlocks rule fires on. -/
inductive CBNode where
  | pre (p : PreEl)
  | inlineCode
deriving DecidableEq, Repr

/-- The regex `language-` followed by at least one word character,
searched from every position of the class attribute; the capture is the
maximal word-character run. -/
def matchLanguageGo : List Char → Option (List Char)
  | [] => none
  | c :: rest =>
    if "language-".data.isPrefixOf (c :: rest) then
      if (((c :: rest).drop 9).takeWhile jsWordChar).isEmpty then matchLanguageGo rest
      else some (((c :: rest).drop 9).takeWhile jsWordChar)
    else matchLanguageGo rest

/-- `className.match(/language-(\w+)/)` and its first capture. -/
def matchLanguageClass (className : String) : Option String :=
  (matchLanguageGo className.data).map String.mk

/-- A JavaScript or-chain over string-ish values: the first truthy value
(null, undefined and the empty string are falsy), with the empty string
as the final default. -/
def jsOrChain : List (Option String) → String
  | [] => ""
  | v :: rest =>
    match v with
    | some s => if s = "" then jsOrChain rest else s
    | none => jsOrChain rest

/-- The replacement function of the codeBlocks rule: a pre element
becomes a fenced block whose language tag is the class capture, else the
data-lang attribute, else empty, and whose body is the trimmed text of
the code element, falling back to the text of the pre itself; a code
element outside a pre becomes a backtick span around the converted
content. -/
def codeBlocksReplacement (content : String) : CBNode → String
  | CBNode.pre p =>
    let lang := jsOrChain
      [p.code.bind fun c => matchLanguageClass c.className,
       p.code.bind fun c => c.dataLang]
    let text := jsOrChain [p.code.map fun c => c.textContent, some p.textContent]
    "\n```" ++ lang ++ "\n" ++ String.mk (jsTrimChars text.data) ++ "\n```\n"
  | CBNode.inlineCode => "`" ++ content ++ "`"

/-! ## Properties of the code-unit string order -/

theorem charUnits_ne_nil (c : Char) : charUnits c ≠ [] := by
  unfold charUnits
  split <;> simp

theorem char_valid_nat (c : Char) :
    c.toNat < 0xd800 ∨ (0xdfff < c.toNat ∧ c.toNat < 0x110000) := c.valid

theorem char_toNat_inj {c d : Char} (h : c.toNat = d.toNat) : c = d :=
  Char.ext (UInt32.toNat.inj h)

theorem flatMap_charUnits_inj :
    ∀ cs ds : List Char, cs.flatMap charUnits = ds.flatMap charUnits → cs = ds := by
  intro cs
  induction cs with
  | nil =>
    intro ds h
    cases ds with
    | nil => rfl
    | cons d ds =>
      exfalso
      rw [List.flatMap_nil, List.flatMap_cons] at h
      rcases List.append_eq_nil.mp h.symm with ⟨h1, _⟩
      exact charUnits_ne_nil d h1
  | cons c cs ih =>
    intro ds h
    cases ds with
    | nil =>
      exfalso
      rw [List.flatMap_nil, List.flatMap_cons] at h
      rcases List.append_eq_nil.mp h with ⟨h1, _⟩
      exact charUnits_ne_nil c h1
    | cons d ds =>
      rw [List.flatMap_cons, List.flatMap_cons] at h
      have hc := char_valid_nat c
      have hd := char_valid_nat d
      by_cases h1 : c.toNat < 0x10000 <;> by_cases h2 : d.toNat < 0x10000 <;>
        simp only [charUnits, h1, h2, if_true, if_false, List.singleton_append,
          List.cons_append, List.nil_append, List.cons.injEq, ite_true, ite_false] at h
      · have hcd : c = d := char_toNat_inj h.1
        rw [hcd, ih ds h.2]
      · omega
      · omega
      · have hq := h.1
        have hr := h.2.1
        have hcd : c = d := char_toNat_inj (by omega)
        rw [hcd, ih ds h.2.2]

theorem strUnits_inj {a b : String} (h : strUnits a = strUnits b) : a = b :=
  String.ext (flatMap_charUnits_inj a.data b.data h)

theorem unitsLe_cons_iff {x y : Nat} {xs ys : List Nat} :
    unitsLe (x :: xs) (y :: ys) = true ↔
      x < y ∨ (x = y ∧ unitsLe xs ys = true) := by
  simp only [unitsLe]
  by_cases h1 : x < y
  · simp [h1]
  · by_cases h2 : y < x
    · have hne : x ≠ y := by omega
      simp [h1, h2, hne]
    · have heq : x = y := by omega
      simp [h1, h2, heq]

theorem unitsLe_total : ∀ a b : List Nat, unitsLe a b || unitsLe b a := by
  intro a
  induction a with
  | nil => intro b; simp [unitsLe]
  | cons x xs ih =>
    intro b
    cases b with
    | nil => simp [unitsLe]
    | cons y ys =>
      rw [Bool.or_eq_true, unitsLe_cons_iff, unitsLe_cons_iff]
      rcases Nat.lt_trichotomy x y with h | h | h
      · exact Or.inl (Or.inl h)
      · rcases Bool.or_eq_true_iff.mp (ih ys) with hu | hu
        · exact Or.inl (Or.inr ⟨h, hu⟩)
        · exact Or.inr (Or.inr ⟨h.symm, hu⟩)
      · exact Or.inr (Or.inl h)

theorem unitsLe_trans : ∀ a b c : List Nat,
    unitsLe a b = true → unitsLe b c = true → unitsLe a c = true := by
  intro a
  induction a with
  | nil => intro b c _ _; simp [unitsLe]
  | cons x xs ih =>
    intro b c hab hbc
    cases b with
    | nil => simp [unitsLe] at hab
    | cons y ys =>
      cases c with
      | nil => simp [unitsLe] at hbc
      | cons z zs =>
        rw [unitsLe_cons_iff] at hab hbc ⊢
        rcases hab with h1 | ⟨h1, h1u⟩ <;> rcases hbc with h2 | ⟨h2, h2u⟩
        · exact Or.inl (by omega)
        · exact Or.inl (by omega)
        · exact Or.inl (by omega)
        · exact Or.inr ⟨by omega, ih ys zs h1u h2u⟩

theorem unitsLe_antisymm : ∀ a b : List Nat,
    unitsLe a b = true → unitsLe b a = true → a = b := by
  intro a
  induction a with
  | nil =>
    intro b _ hba
    cases b with
    | nil => rfl
    | cons y ys => simp [unitsLe] at hba
  | cons x xs ih =>
    intro b hab hba
    cases b with
    | nil => simp [unitsLe] at hab
    | cons y ys =>
      rw [unitsLe_cons_iff] at hab hba
      rcases hab with h1 | ⟨h1, h1u⟩ <;> rcases hba with h2 | ⟨h2, h2u⟩
      · exfalso; omega
      · exfalso; omega
      · exfalso; omega
      · rw [h1, ih ys h1u h2u]

instance : IsTotal String jsStrLe where
  total a b := by
    have h := unitsLe_total (strUnits a) (strUnits b)
    rcases Bool.or_eq_true_iff.mp h with h1 | h1
    · exact Or.inl h1
    · exact Or.inr h1

instance : IsTrans String jsStrLe where
  trans a b c hab hbc := unitsLe_trans (strUnits a) (strUnits b) (strUnits c) hab hbc

instance : IsAntisymm String jsStrLe where
  antisymm a b hab hba := strUnits_inj (unitsLe_antisymm (strUnits a) (strUnits b) hab hba)

theorem jsSortStrings_sorted (l : List String) :
    List.Sorted jsStrLe (jsSortStrings l) :=
  List.sorted_insertionSort jsStrLe l

theorem jsSortStrings_perm (l : List String) : (jsSortStrings l).Perm l :=
  List.perm_insertionSort jsStrLe l

theorem jsSortStrings_congr {l1 l2 : List String} (h : l1.Perm l2) :
    jsSortStrings l1 = jsSortStrings l2 :=
  List.eq_of_perm_of_sorted
    ((jsSortStrings_perm l1).trans (h.trans (jsSortStrings_perm l2).symm))
    (jsSortStrings_sorted l1) (jsSortStrings_sorted l2)

/-! ## Helper lemmas -/

theorem scratchCleanup_eq_false (t : Bool) : scratchCleanup t = false := by
  unfold scratchCleanup
  cases t <;> simp

theorem matchLanguageGo_some_ne_nil :
    ∀ cs w, matchLanguageGo cs = some w → w ≠ [] := by
  intro cs
  induction cs with
  | nil => intro w h; simp [matchLanguageGo] at h
  | cons c rest ih =>
    intro w h
    unfold matchLanguageGo at h
    split at h
    · split at h
      · exact ih w h
      · rename_i hne
        cases h
        intro hnil
        rw [hnil] at hne
        simp at hne
    · exact ih w h

/-- In the direct-fetch loop the dry-run mode suppresses every document
write. -/
theorem directLoop_dry_writes (env : DirectEnv) :
    ∀ paths, (directLoop env true paths).2.2.2 = [] := by
  intro paths
  induction paths with
  | nil => rfl
  | cons p rest ih =>
    unfold directLoop
    cases hf : env.fetchResult p <;> simp [hf, ih]

/-- Characterization of the direct-fetch loop: the result list holds
exactly the successfully fetched paths in configuration order, the
synced counter counts them, and together with the failure counter they
partition the path list. -/
theorem directLoop_spec (env : DirectEnv) (dryRun : Bool) :
    ∀ paths : List String,
      (directLoop env dryRun paths).1 =
        (paths.filterMap fun p =>
          match env.fetchResult p with
          | Except.ok c => some (⟨p, env.hashOf c, jsStringLength c⟩ : DirectResult)
          | Except.error _ => none) ∧
      (directLoop env dryRun paths).2.1 = (directLoop env dryRun paths).1.length ∧
      (directLoop env dryRun paths).2.1 + (directLoop env dryRun paths).2.2.1 =
        paths.length := by
  intro paths
  induction paths with
  | nil => exact ⟨rfl, rfl, rfl⟩
  | cons p rest ih =>
    rcases ih with ⟨ih1, ih2, ih3⟩
    unfold directLoop
    cases hf : env.fetchResult p with
    | ok c =>
      simp only [hf, List.filterMap_cons, List.length_cons]
      exact ⟨by rw [ih1], by omega, by omega⟩
    | error e =>
      simp only [hf, List.filterMap_cons, List.length_cons]
      exact ⟨ih1, ih2, by omega⟩

theorem hasDelim_cons_false {c : Char} {rest : List Char}
    (h : hasDelimOccurrence (c :: rest) = false) :
    startsWithDelim (c :: rest) = false ∧ hasDelimOccurrence rest = false := by
  unfold hasDelimOccurrence at h
  simp only [Bool.or_eq_false_iff] at h
  exact h

theorem splitSectionsGo_no_delim :
    ∀ cs cur done, hasDelimOccurrence cs = false →
      splitSectionsGo cs cur done = ((cur.reverse ++ cs) :: done).reverse := by
  intro cs
  induction cs with
  | nil => intro cur done _; simp [splitSectionsGo]
  | cons c rest ih =>
    intro cur done h
    rcases hasDelim_cons_false h with ⟨h1, h2⟩
    unfold splitSectionsGo
    rw [h1]
    simp only [Bool.false_and, if_false, ite_false]
    rw [ih (c :: cur) done h2]
    simp

theorem matchDelimPath_no_delim {cs : List Char}
    (h : hasDelimOccurrence cs = false) : matchDelimPath cs = none := by
  cases cs with
  | nil => rfl
  | cons c rest =>
    rcases hasDelim_cons_false h with ⟨h1, _⟩
    unfold startsWithDelim at h1
    rw [decide_eq_false_iff_not] at h1
    unfold matchDelimPath
    rw [if_neg h1]

theorem parseSections_no_delim {cs : List Char}
    (h : hasDelimOccurrence cs = false) : parseSections cs = [] := by
  unfold parseSections splitSections
  rw [splitSectionsGo_no_delim cs [] [] h]
  simp [matchDelimPath_no_delim h]

/-- The dry-run mode of `copyDocs` of the fastmcp script produces no
writes for any cloned tree. -/
theorem fastmcpCopyDocs_dry_writes {t : Option (List FsEntry)}
    {res : List SyncResult} {ws : List WriteEvent}
    (h : fastmcpCopyDocs t true = Except.ok (res, ws)) : ws = [] := by
  cases t with
  | none => simp [fastmcpCopyDocs] at h
  | some es =>
    simp only [fastmcpCopyDocs, if_true, ite_true, Except.ok.injEq, Prod.mk.injEq] at h
    exact h.2.symm

/-- The dry-run mode of `copyDocs` of the github template produces no
writes for any cloned tree. -/
theorem githubCopyDocs_dry_writes {t : Option (List FsEntry)}
    {res : List GithubResult} {ws : List WriteEvent}
    (h : githubCopyDocs t true = Except.ok (res, ws)) : ws = [] := by
  cases t with
  | none => simp [githubCopyDocs] at h
  | some es =>
    simp only [githubCopyDocs, if_true, ite_true, Except.ok.injEq, Prod.mk.injEq] at h
    exact h.2.symm

/-! ## Claim C2: PathMapper extension handling -/

/-- C2 counterexample: `pathToFilename` does not rewrite a trailing mdx
extension and does not check whether the md extension is already present
— on the two spec examples it returns a-b-c.mdx.md and x.md.md, not
a-b-c.md and x.md. -/
theorem pathToFilename_counterexample :
    pathToFilename "a/b/c.mdx" = "a-b-c.mdx.md" ∧
    pathToFilename "a/b/c.mdx" ≠ "a-b-c.md" ∧
    pathToFilename "docs/x.md" = "x.md.md" ∧
    pathToFilename "docs/x.md" ≠ "x.md" := by decide

/-- C2 (amended): `pathToFilename` strips a leading docs segment, turns
slashes into dashes, collapses dash runs and appends a markdown
extension unconditionally — so every output ends in the md extension,
a/b/c.mdx maps to a-b-c.mdx.md, and docs/x.md maps to x.md.md. -/
theorem pathToFilename_spec (docPath : String) :
    ".md".data.isSuffixOf (pathToFilename docPath).data = true ∧
    pathToFilename "a/b/c.mdx" = "a-b-c.mdx.md" ∧
    pathToFilename "docs/x.md" = "x.md.md" := by
  refine ⟨?_, by decide, by decide⟩
  unfold pathToFilename
  rw [String.data_append]
  rw [List.isSuffixOf]
  simp [List.isPrefixOf_iff_prefix]

/-! ## Claim C4: SectionParser segmentation -/

/-- C4 counterexample: a delimiter-pattern occurrence in the middle of a
line does start a new segment — parsing a blob whose second delimiter
occurs mid-line binds both paths, instead of keeping the mid-line
occurrence inside the body of the first section. -/
theorem sectionParser_midline_counterexample :
    parseLlmsTxtMap "===/a===\nx ===/b===\ny" = [("a", "x"), ("b", "y")] ∧
    parseLlmsTxtMap "===/a===\nx ===/b===\ny" ≠ [("a", "x ===/b===\ny")] := by
  decide

/-- C4 (amended): the blob is split before every occurrence of the
delimiter opener, mid-line occurrences included; text preceding the
first delimiter is discarded; a blob with no delimiter occurrence parses
to the empty mapping rather than an error. -/
theorem sectionParser_segmentation (s : String)
    (h : hasDelimOccurrence s.data = false) :
    parseLlmsTxtMap s = [] ∧ parseLlmsTxtList s = [] ∧
    parseLlmsTxtMap "preamble text\n===/a===\nbody" = [("a", "body")] ∧
    parseLlmsTxtMap "===/a===\nx ===/b===\ny" = [("a", "x"), ("b", "y")] := by
  refine ⟨?_, ?_, by decide, by decide⟩
  · unfold parseLlmsTxtMap
    rw [parseSections_no_delim h]
    rfl
  · unfold parseLlmsTxtList
    rw [parseSections_no_delim h]
    rfl

/-- C4 witness: a concrete delimiter-free blob parses to the empty
mapping. -/
theorem sectionParser_segmentation_witness :
    parseLlmsTxtMap "just plain text with no delimiter" = [] ∧
    parseLlmsTxtList "just plain text with no delimiter" = [] := by
  have h := sectionParser_segmentation "just plain text with no delimiter" (by decide)
  exact ⟨h.1, h.2.1⟩

/-! ## Claim C5: duplicate paths in SectionParser -/

/-- C5 counterexample: the array-based parse of the llms.txt script
template keeps both sections of a duplicated path, so its result for the
spec example has two entries, not a single-entry mapping. -/
theorem duplicatePath_template_counterexample :
    parseLlmsTxtList "===/a===\n1\n===/a===\n2" =
      [⟨"a", "1"⟩, ⟨"a", "2"⟩] ∧
    (parseLlmsTxtList "===/a===\n1\n===/a===\n2").length ≠ 1 := by decide

/-- C5 (amended): the map-based parse of the xai script binds a
duplicated path to the later body with a single entry; the array-based
template parse keeps both entries in order, and when its results are
written both writes target the same output file with the later body
written last (last write wins on disk). -/
theorem duplicatePath_last_write_wins :
    parseLlmsTxtMap "===/a===\n1\n===/a===\n2" = [("a", "2")] ∧
    parseLlmsTxtList "===/a===\n1\n===/a===\n2" = [⟨"a", "1"⟩, ⟨"a", "2"⟩] ∧
    (llmsTemplateSyncDocs "===/a===\n1\n===/a===\n2" "https://docs.example.com"
        false).2 =
      [WriteEvent.docFile "a.md" "---\nsource: https://docs.example.com/a\n---\n\n1",
       WriteEvent.docFile "a.md"
         "---\nsource: https://docs.example.com/a\n---\n\n2"] := by decide

/-! ## Claim C9: the codeBlocks fence rule -/

/-- C9 counterexample: when the pre node nests a code element whose text
content is empty, the replacement falls back to the text content of the
pre itself (the JavaScript or-chain treats the empty string as falsy),
so the block body is not the trimmed text content of the code
element. -/
theorem codeBlocks_empty_code_counterexample :
    codeBlocksReplacement "" (CBNode.pre ⟨some ⟨"", none, ""⟩, "hello"⟩) =
      "\n```\nhello\n```\n" ∧
    codeBlocksReplacement "" (CBNode.pre ⟨some ⟨"", none, ""⟩, "hello"⟩) ≠
      "\n```\n\n```\n" := by decide

/-- C9 (amended): a pre node becomes a fenced block whose language tag is
the language-class capture when present, else the data-lang attribute
when present and nonempty, else empty; the block body is the trimmed
text of the nested code element when that text is nonempty, falling back
to the text of the pre itself; the two spec examples hold. -/
theorem codeBlocks_fence_rule (cl pt tc : String) (dl : Option String) :
    codeBlocksReplacement ""
        (CBNode.pre ⟨some ⟨"language-python", none, "x = 1"⟩, "x = 1"⟩) =
      "\n```python\nx = 1\n```\n" ∧
    codeBlocksReplacement "" (CBNode.pre ⟨none, "plain text"⟩) =
      "\n```\nplain text\n```\n" ∧
    codeBlocksReplacement "" (CBNode.pre ⟨some ⟨cl, dl, tc⟩, pt⟩) =
      "\n```" ++ jsOrChain [matchLanguageClass cl, dl] ++ "\n" ++
        String.mk (jsTrimChars (if tc = "" then pt else tc).data) ++ "\n```\n" ∧
    (∀ lang, matchLanguageClass cl = some lang →
      jsOrChain [matchLanguageClass cl, dl] = lang) ∧
    (matchLanguageClass cl = none → ∀ d, dl = some d → d ≠ "" →
      jsOrChain [matchLanguageClass cl, dl] = d) ∧
    (matchLanguageClass cl = none → dl = none →
      jsOrChain [matchLanguageClass cl, dl] = "") := by
  refine ⟨by decide, by decide, ?_, ?_, ?_, ?_⟩
  · unfold codeBlocksReplacement
    dsimp only
    have htext : jsOrChain [some tc, some pt] = if tc = "" then pt else tc := by
      by_cases htc : tc = "" <;> by_cases hpt : pt = "" <;>
        simp [jsOrChain, htc, hpt]
    have hbind1 : ((some (⟨cl, dl, tc⟩ : CodeEl)).bind fun c =>
        matchLanguageClass c.className) = matchLanguageClass cl := rfl
    have hbind2 : ((some (⟨cl, dl, tc⟩ : CodeEl)).bind fun c => c.dataLang) = dl := rfl
    have hmap : Option.map (fun c => c.textContent)
        (some (⟨cl, dl, tc⟩ : CodeEl)) = some tc := rfl
    rw [hbind1, hbind2, hmap, htext]
  · intro lang hl
    have hlang : lang ≠ "" := by
      unfold matchLanguageClass at hl
      cases hgo : matchLanguageGo cl.data with
      | none => rw [hgo] at hl; exact absurd hl (by simp)
      | some w =>
        rw [hgo] at hl
        have hw := matchLanguageGo_some_ne_nil cl.data w hgo
        intro hempty
        apply hw
        have hmk : String.mk w = lang := by simpa using hl
        rw [hempty] at hmk
        exact congrArg String.data hmk
    rw [hl]
    simp [jsOrChain, hlang]
  · intro h d hd hne
    rw [h, hd]
    simp [jsOrChain, hne]
  · intro h h2
    rw [h, h2]
    rfl

/-- C9 witness: the language priority and fence shape at concrete
nodes. -/
theorem codeBlocks_fence_rule_witness :
    jsOrChain [matchLanguageClass "language-rust", some "other"] = "rust" ∧
    jsOrChain [matchLanguageClass "plain", some "toml"] = "toml" ∧
    jsOrChain [matchLanguageClass "plain", none] = "" ∧
    codeBlocksReplacement ""
        (CBNode.pre ⟨some ⟨"language-rust", some "other", "code"⟩, "pre"⟩) =
      "\n```rust\ncode\n```\n" := by
  have h := codeBlocks_fence_rule "language-rust" "pre" "code" (some "other")
  have h2 := codeBlocks_fence_rule "plain" "pre" "code" (some "toml")
  have h3 := codeBlocks_fence_rule "plain" "pre" "code" none
  refine ⟨h.2.2.2.1 "rust" (by decide),
    h2.2.2.2.2.1 (by decide) "toml" rfl (by decide),
    h3.2.2.2.2.2 (by decide) rfl, ?_⟩
  rw [h.2.2.1, h.2.2.2.1 "rust" (by decide)]
  decide

/-! ## Claim C1: direct-fetch failure isolation -/

/-- The direct-fetch environment of the C1 scenario: the second of three
paths yields a non-2xx response (so `fetchDoc` throws for it), the rest
succeed. -/
def directEnvB : DirectEnv :=
  ⟨fun p => if p = "b.md" then Except.error "Failed to fetch: 500"
    else Except.ok ("content of " ++ p),
   fun _ => "abcdef123456", "https://docs.example.com",
   "2026-01-01T00:00:00.000Z"⟩

/-- C1 counterexample: with three configured paths whose second fetch
fails, the run produces two results, not three — the failed path has no
result entry (and the direct-fetch result record has no status field at
all); the remaining path is still fetched and the manifest lists exactly
the two successes. -/
theorem directFetch_two_results_counterexample :
    (directMain directEnvB ["a.md", "b.md", "c.md"] false).results.length = 2 ∧
    (directMain directEnvB ["a.md", "b.md", "c.md"] false).results.length ≠ 3 ∧
    (directMain directEnvB ["a.md", "b.md", "c.md"] false).failedCount = 1 ∧
    ((directMain directEnvB ["a.md", "b.md", "c.md"] false).results.map fun r =>
      r.path) = ["a.md", "c.md"] ∧
    ((directMain directEnvB ["a.md", "b.md", "c.md"] false).manifest.map fun m =>
      m.files.map fun f => f.path) = some ["a.md", "c.md"] := by decide

/-- C1 (amended): in a direct-fetch run a failing path is isolated —
every configured path is attempted and accounted for (the synced and
failed counters partition the configured paths), the result list holds
exactly one entry per successful path in configuration order, and the
manifest, present exactly in a non-dry run with at least one success,
lists exactly the successful paths. -/
theorem directFetch_failure_isolation (env : DirectEnv) (paths : List String)
    (dryRun : Bool) :
    (directMain env paths dryRun).results =
      (paths.filterMap fun p =>
        match env.fetchResult p with
        | Except.ok c => some (⟨p, env.hashOf c, jsStringLength c⟩ : DirectResult)
        | Except.error _ => none) ∧
    (directMain env paths dryRun).syncedCount +
        (directMain env paths dryRun).failedCount = paths.length ∧
    (directMain env paths dryRun).manifest =
      (if dryRun = false ∧ (directMain env paths dryRun).results ≠ [] then
        some ⟨env.baseUrl, env.syncedAt,
          (directMain env paths dryRun).results.length,
          (directMain env paths dryRun).results.map fun r =>
            (⟨r.path, r.hash⟩ : DirectManifestEntry)⟩
       else none) := by
  rcases directLoop_spec env dryRun paths with ⟨h1, h2, h3⟩
  unfold directMain
  dsimp only
  refine ⟨h1, h3, ?_⟩
  cases dryRun with
  | true => simp
  | false =>
    by_cases he : (directLoop env false paths).1 = []
    · simp [he]
    · simp [he, List.isEmpty_iff]

/-! ## Claim C3: dry runs write nothing -/

/-- The xai environment whose fetched blob holds no sections. -/
def xaiEnvEmptyBlob : XaiEnv := ⟨Except.ok "", false⟩

/-- C3 counterexample: a configuration whose fetched blob contains no
sections yields an empty dry-run result list, so the dry-run result list
is not non-empty for every configuration (the zero-write half of the
claim does hold on this input). -/
theorem dryRun_empty_results_counterexample :
    (xaiMain xaiEnvEmptyBlob "2026-01-01" true).writes = [] ∧
    (xaiMain xaiEnvEmptyBlob "2026-01-01" true).results = some [] := by decide

/-- C3 (amended): for every configuration a dry run performs zero
filesystem writes (no document file, no manifest, and no creation of the
resources directory) across all five sync scripts, and its result list
holds exactly one skipped entry per acquired document — non-empty
exactly when the acquirer yields at least one document. -/
theorem dryRun_writes_nothing (env : XaiEnv) (lenv : LlmsEnv)
    (fenv : FastmcpEnv) (genv : GithubEnv) (denv : DirectEnv)
    (paths : List String) (s : String) :
    (xaiMain env s true).writes = [] ∧
    (xaiMain env s true).madeResourcesDir = false ∧
    (llmsTemplateMain lenv true).writes = [] ∧
    (llmsTemplateMain lenv true).madeResourcesDir = false ∧
    (fastmcpMain fenv true).writes = [] ∧
    (githubMain genv true).writes = [] ∧
    (directMain denv paths true).writes = [] ∧
    (∀ c, env.fetchResult = Except.ok c →
      (xaiMain env s true).results =
        some ((parseLlmsTxtMap c).map fun pb =>
          ⟨pathToFilename pb.1, extractTitle pb.2 pb.1, SyncStatus.skipped⟩)) := by
  refine ⟨?_, ?_, ?_, ?_, ?_, ?_, ?_, ?_⟩
  · cases henv : env.fetchResult <;> simp [xaiMain, henv, xaiSyncDocs]
  · cases henv : env.fetchResult <;> simp [xaiMain, henv]
  · cases henv : lenv.fetchResult <;>
      simp [llmsTemplateMain, henv, llmsTemplateSyncDocs]
  · cases henv : lenv.fetchResult <;> simp [llmsTemplateMain, henv]
  · cases hc : fenv.cloneOk
    · simp [fastmcpMain, fastmcpClone, hc]
    · cases hcd : fastmcpCopyDocs fenv.sourceTree true with
      | error e => simp [fastmcpMain, fastmcpClone, hc, hcd]
      | ok rw =>
        obtain ⟨res, ws⟩ := rw
        have hws : ws = [] := fastmcpCopyDocs_dry_writes hcd
        simp [fastmcpMain, fastmcpClone, hc, hcd, hws]
  · cases hc : genv.cloneOk
    · simp [githubMain, hc]
    · cases hcd : githubCopyDocs genv.sourceTree true with
      | error e => simp [githubMain, hc, hcd]
      | ok rw =>
        obtain ⟨res, ws⟩ := rw
        have hws : ws = [] := githubCopyDocs_dry_writes hcd
        simp [githubMain, hc, hcd, hws]
  · have h := directLoop_dry_writes denv paths
    simp [directMain, h]
  · intro c hcontent
    simp [xaiMain, hcontent, xaiSyncDocs]

/-- C3 witness: a dry run over a one-section blob writes nothing and
reports the one document it would have written. -/
theorem dryRun_writes_nothing_witness :
    (xaiMain ⟨Except.ok "===/a===\nhi", false⟩ "t" true).writes = [] ∧
    (xaiMain ⟨Except.ok "===/a===\nhi", false⟩ "t" true).results =
      some [⟨"a.md", "a", SyncStatus.skipped⟩] := by
  have h := dryRun_writes_nothing ⟨Except.ok "===/a===\nhi", false⟩
    ⟨Except.ok "", "u", "b", "t", false⟩
    ⟨true, false, "c", "t", some [], false, false⟩
    ⟨true, false, "c", "t", "r", "p", some [], false⟩
    ⟨fun _ => Except.ok "", fun _ => "h", "b", "t"⟩ [] "t"
  refine ⟨h.1, ?_⟩
  rw [h.2.2.2.2.2.2.2 "===/a===\nhi" rfl]
  decide

/-! ## Claim C6: guaranteed scratch-directory cleanup -/

/-- C6: for every environment and mode, both repository-clone sync runs
finish with the scratch clone directory absent — the finally clause runs
the cleanup on success, on a failed clone command and on a missing
source directory alike. -/
theorem scratch_dir_always_removed (e1 : FastmcpEnv) (e2 : GithubEnv)
    (d1 d2 : Bool) :
    (fastmcpMain e1 d1).tempDirExists = false ∧
    (githubMain e2 d2).tempDirExists = false := by
  constructor
  · cases hc : e1.cloneOk
    · simp [fastmcpMain, fastmcpClone, hc, scratchCleanup_eq_false]
    · cases hcd : fastmcpCopyDocs e1.sourceTree d1 with
      | error e =>
        simp [fastmcpMain, fastmcpClone, hc, hcd, scratchCleanup_eq_false]
      | ok rw =>
        simp [fastmcpMain, fastmcpClone, hc, hcd, scratchCleanup_eq_false]
  · cases hc : e2.cloneOk
    · simp [githubMain, hc, scratchCleanup_eq_false]
    · cases hcd : githubCopyDocs e2.sourceTree d2 with
      | error e => simp [githubMain, hc, hcd, scratchCleanup_eq_false]
      | ok rw => simp [githubMain, hc, hcd, scratchCleanup_eq_false]

/-! ## Claim C7: fatal-error propagation and exit status -/

/-- A github-template environment whose clone command fails. -/
def githubEnvCloneFail : GithubEnv :=
  ⟨false, false, "deadbeef", "2026-01-01", "https://github.com/org/repo.git",
   "docs", none, false⟩

/-- C7 counterexample: in the github template a failing clone command
propagates to the top level and the error is printed, but the rejection
handler is a printing catch alone, so the process exits with status
zero rather than a non-zero status. -/
theorem github_fatal_exit_zero_counterexample :
    (githubMain githubEnvCloneFail false).printedError = true ∧
    (githubMain githubEnvCloneFail false).results = none ∧
    (githubMain githubEnvCloneFail false).exitCode = 0 := by decide

/-- C7 (amended): a systemic failure — the clone command failing, the
source directory absent, the llms.txt fetch failing — propagates to the
top level and an error message is printed in every script; the fastmcp
and xai scripts then exit with status one, while the github and
direct-fetch templates handle the rejection with a printing catch and
the process exits with status zero. -/
theorem fatal_error_propagation (e1 : FastmcpEnv) (e2 : GithubEnv)
    (env : XaiEnv) (denv : DirectEnv) (paths : List String) (s msg : String)
    (d : Bool)
    (h1 : e1.cloneOk = false ∨ e1.sourceTree = none)
    (h2 : e2.cloneOk = false ∨ e2.sourceTree = none)
    (h3 : env.fetchResult = Except.error msg) :
    (fastmcpMain e1 d).exitCode = 1 ∧ (fastmcpMain e1 d).printedError = true ∧
    (fastmcpMain e1 d).results = none ∧
    (xaiMain env s d).exitCode = 1 ∧ (xaiMain env s d).printedError = true ∧
    (githubMain e2 d).exitCode = 0 ∧ (githubMain e2 d).printedError = true ∧
    (githubMain e2 d).results = none ∧
    (directMain denv paths d).exitCode = 0 := by
  have hf : (fastmcpMain e1 d).exitCode = 1 ∧
      (fastmcpMain e1 d).printedError = true ∧
      (fastmcpMain e1 d).results = none := by
    rcases h1 with hco | hst
    · simp [fastmcpMain, fastmcpClone, hco]
    · cases hc : e1.cloneOk
      · simp [fastmcpMain, fastmcpClone, hc]
      · simp [fastmcpMain, fastmcpClone, hc, fastmcpCopyDocs, hst]
  have hgh : (githubMain e2 d).exitCode = 0 ∧
      (githubMain e2 d).printedError = true ∧
      (githubMain e2 d).results = none := by
    rcases h2 with hco | hst
    · simp [githubMain, hco]
    · cases hc : e2.cloneOk
      · simp [githubMain, hc]
      · simp [githubMain, hc, githubCopyDocs, hst]
  refine ⟨hf.1, hf.2.1, hf.2.2, ?_, ?_, hgh.1, hgh.2.1, hgh.2.2, ?_⟩
  · simp [xaiMain, h3]
  · simp [xaiMain, h3]
  · simp [directMain]

/-- C7 witness: concrete failing environments for each script. -/
theorem fatal_error_propagation_witness :
    (fastmcpMain ⟨false, true, "c", "t", none, true, false⟩ false).exitCode = 1 ∧
    (xaiMain ⟨Except.error "boom", false⟩ "t" false).exitCode = 1 ∧
    (githubMain ⟨false, false, "c", "t", "r", "d", none, false⟩ false).exitCode =
      0 := by
  have h := fatal_error_propagation ⟨false, true, "c", "t", none, true, false⟩
    ⟨false, false, "c", "t", "r", "d", none, false⟩
    ⟨Except.error "boom", false⟩
    ⟨fun _ => Except.ok "", fun _ => "h", "b", "t"⟩ [] "t" "boom" false
    (Or.inl rfl) (Or.inl rfl) rfl
  exact ⟨h.1, h.2.2.2.1, h.2.2.2.2.2.1⟩

/-! ## Claim C8: manifest file-list sorting -/

/-- A direct-fetch environment where every fetch succeeds. -/
def directEnvAllOk : DirectEnv :=
  ⟨fun p => Except.ok ("content of " ++ p), fun _ => "abcdef123456",
   "https://docs.example.com", "2026-01-01T00:00:00.000Z"⟩

/-- C8 counterexample: the direct-fetch template writes its manifest
file entries in configuration order without sorting — two runs acquiring
the same two documents in opposite orders write different manifests. -/
theorem direct_manifest_unsorted_counterexample :
    ((directMain directEnvAllOk ["b.md", "a.md"] false).manifest.map fun m =>
      m.files.map fun f => f.path) = some ["b.md", "a.md"] ∧
    ((directMain directEnvAllOk ["a.md", "b.md"] false).manifest.map fun m =>
      m.files.map fun f => f.path) = some ["a.md", "b.md"] ∧
    (directMain directEnvAllOk ["b.md", "a.md"] false).manifest ≠
      (directMain directEnvAllOk ["a.md", "b.md"] false).manifest := by decide

/-- C8 (amended): the fastmcp, llms.txt and github manifests sort the
file list before writing — it is sorted in the code-unit string order
and two runs acquiring the same documents in different orders write the
identical list; the direct-fetch template writes its path-and-hash
entries in configuration order without sorting. -/
theorem manifest_files_sorted (c s u : String) (r1 r2 : List SyncResult)
    (g : GithubEnv) (gr1 gr2 : List GithubResult)
    (h : (r1.map fun r => r.path).Perm (r2.map fun r => r.path))
    (hg : (gr1.map fun r => r.path).Perm (gr2.map fun r => r.path)) :
    List.Sorted jsStrLe (fastmcpManifest c s r1).files ∧
    (fastmcpManifest c s r1).files = (fastmcpManifest c s r2).files ∧
    List.Sorted jsStrLe (llmsManifest u s r1).files ∧
    (llmsManifest u s r1).files = (llmsManifest u s r2).files ∧
    List.Sorted jsStrLe (githubManifest g gr1).files ∧
    (githubManifest g gr1).files = (githubManifest g gr2).files :=
  ⟨jsSortStrings_sorted _, jsSortStrings_congr h, jsSortStrings_sorted _,
   jsSortStrings_congr h, jsSortStrings_sorted _, jsSortStrings_congr hg⟩

/-- C8 witness: two opposite acquisition orders yield the same sorted
manifest list. -/
theorem manifest_files_sorted_witness :
    (fastmcpManifest "c" "t" [⟨"b.md", "b", SyncStatus.created⟩,
        ⟨"a.md", "a", SyncStatus.created⟩]).files =
      (fastmcpManifest "c" "t" [⟨"a.md", "a", SyncStatus.created⟩,
        ⟨"b.md", "b", SyncStatus.created⟩]).files ∧
    (fastmcpManifest "c" "t" [⟨"b.md", "b", SyncStatus.created⟩,
        ⟨"a.md", "a", SyncStatus.created⟩]).files = ["a.md", "b.md"] := by
  have h := manifest_files_sorted "c" "t" "u"
    [⟨"b.md", "b", SyncStatus.created⟩, ⟨"a.md", "a", SyncStatus.created⟩]
    [⟨"a.md", "a", SyncStatus.created⟩, ⟨"b.md", "b", SyncStatus.created⟩]
    githubEnvCloneFail [] [] (by decide) (by decide)
  exact ⟨h.2.1, by decide⟩

/-! ## Claim C10: the produced statuses -/

/-- C10: every result produced by the xai sync, the llms.txt template
sync and the fastmcp copy has status skipped when the run is dry and
created otherwise; the declared updated and unchanged statuses are never
produced. -/
theorem syncResult_status_invariant (content baseUrl : String) (dry : Bool)
    (tree : Option (List FsEntry)) (r : SyncResult)
    (res : List SyncResult) (ws : List WriteEvent) :
    (r ∈ (xaiSyncDocs content dry).1 →
      r.status = if dry then SyncStatus.skipped else SyncStatus.created) ∧
    (r ∈ (llmsTemplateSyncDocs content baseUrl dry).1 →
      r.status = if dry then SyncStatus.skipped else SyncStatus.created) ∧
    (fastmcpCopyDocs tree dry = Except.ok (res, ws) → r ∈ res →
      r.status = if dry then SyncStatus.skipped else SyncStatus.created) := by
  refine ⟨?_, ?_, ?_⟩
  · intro hr
    simp only [xaiSyncDocs, List.mem_map] at hr
    obtain ⟨pb, _, hpb⟩ := hr
    rw [← hpb]
  · intro hr
    simp only [llmsTemplateSyncDocs, List.mem_map] at hr
    obtain ⟨d, _, hd⟩ := hr
    rw [← hd]
  · intro hcd hr
    cases tree with
    | none => simp [fastmcpCopyDocs] at hcd
    | some es =>
      simp only [fastmcpCopyDocs, Except.ok.injEq, Prod.mk.injEq] at hcd
      rw [← hcd.1] at hr
      simp only [List.mem_map] at hr
      obtain ⟨d, _, hd⟩ := hr
      rw [← hd]

/-- C10 witness: a dry xai run produces a skipped result and a non-dry
fastmcp copy produces a created result. -/
theorem syncResult_status_invariant_witness :
    (⟨"a.md", "a", SyncStatus.skipped⟩ : SyncResult).status =
      SyncStatus.skipped ∧
    (⟨"b.md", "b", SyncStatus.created⟩ : SyncResult).status =
      SyncStatus.created := by
  have h1 := syncResult_status_invariant "===/a===\nhi" "u" true (some [])
    ⟨"a.md", "a", SyncStatus.skipped⟩ [] []
  have h2 := syncResult_status_invariant "===/b===\nhi" "u" false
    (some [FsEntry.file "b.md" "hi"]) ⟨"b.md", "b", SyncStatus.created⟩
    [⟨"b.md", "b", SyncStatus.created⟩] [WriteEvent.docFile "b.md" "hi"]
  refine ⟨?_, ?_⟩
  · exact h1.1 (by decide)
  · have hcd : fastmcpCopyDocs (some [FsEntry.file "b.md" "hi"]) false =
        Except.ok ([(⟨"b.md", "b", SyncStatus.created⟩ : SyncResult)],
          [WriteEvent.docFile "b.md" "hi"]) := by
      simp only [fastmcpCopyDocs, fastmcpWalk]
      rfl
    exact h2.2.2 hcd (by decide)

/-! ## Sanity checks of the embedding on the spec examples -/

example : parseLlmsTxtMap "===/a===\nhello\n===/b===\nworld" =
    [("a", "hello"), ("b", "world")] := by decide
example : parseLlmsTxtMap "" = [] := by decide
example : parseLlmsTxtMap "===/a===\n   \n" = [] := by decide
example : pathToFilename "docs/guides/chat" = "guides-chat.md" := by decide
example : firstHeading "intro\n# My Title\nrest".data = some "My Title".data := by
  decide
example : firstHeading "## sub only".data = none := by decide
example : extractTitle "no heading" "docs/guides/chat" = "chat" := by decide
example : fastmcpOutputName "a/b" "c.mdx" = "a-b-c.md" := by decide
example : fastmcpOutputName "" "c.mdx" = "c.md" := by decide
example : jsSortStrings ["b.md", "a.md"] = ["a.md", "b.md"] := by decide

end AiDocsSync
